import Mathlib

/-!
Verification of the word-of-wisdom anti-abuse TCP gateway.

The Go sources are embedded shallowly: pure functions become Lean
functions over `Nat` (machine words are reduced modulo 2^32 explicitly),
byte streams become `List Nat`, strings become Lean `String`, and the
stateful server pieces become explicit state-passing step functions whose
interleavings range over arbitrary event sequences.
-/

namespace WordOfWisdom

/-! ## SHA-256 (crypto/sha256, FIPS 180-4), used by internal/pow/sha256.go -/

namespace Sha256

/-- Reduce to a 32-bit machine word. -/
def w32 (x : Nat) : Nat := x % 4294967296

/-- Right rotation of a 32-bit word by `n` places. -/
def rotr (n x : Nat) : Nat := w32 ((x >>> n) ||| (x <<< (32 - n)))

/-- The 64 SHA-256 round constants. -/
def K : List Nat :=
  [1116352408, 1899447441, 3049323471, 3921009573, 961987163, 1508970993,
   2453635748, 2870763221, 3624381080, 310598401, 607225278, 1426881987,
   1925078388, 2162078206, 2614888103, 3248222580, 3835390401, 4022224774,
   264347078, 604807628, 770255983, 1249150122, 1555081692, 1996064986,
   2554220882, 2821834349, 2952996808, 3210313671, 3336571891, 3584528711,
   113926993, 338241895, 666307205, 773529912, 1294757372, 1396182291,
   1695183700, 1986661051, 2177026350, 2456956037, 2730485921, 2820302411,
   3259730800, 3345764771, 3516065817, 3600352804, 4094571909, 275423344,
   430227734, 506948616, 659060556, 883997877, 958139571, 1322822218,
   1537002063, 1747873779, 1955562222, 2024104815, 2227730452, 2361852424,
   2428436474, 2756734187, 3204031479, 3329325298]

/-- The initial hash state. -/
def initH : List Nat :=
  [1779033703, 3144134277, 1013904242, 2773480762,
   1359893119, 2600822924, 528734635, 1541459225]

/-- Group a byte list into big-endian 32-bit words (16 words per block). -/
def toWords : List Nat → List Nat
  | a :: b :: c :: d :: rest => ((a <<< 24) ||| (b <<< 16) ||| (c <<< 8) ||| d) :: toWords rest
  | _ => []

/-- Extend the 16 block words to the 64-entry message schedule. -/
def schedule (w16 : List Nat) : List Nat :=
  let arr := (List.range 48).foldl (fun (a : Array Nat) i =>
    let x := a.getD (i + 1) 0
    let y := a.getD (i + 14) 0
    let s0 := (rotr 7 x) ^^^ (rotr 18 x) ^^^ (x >>> 3)
    let s1 := (rotr 17 y) ^^^ (rotr 19 y) ^^^ (y >>> 10)
    a.push (w32 (a.getD i 0 + s0 + a.getD (i + 9) 0 + s1))) w16.toArray
  arr.toList

/-- The eight working registers of the compression function. -/
structure Regs where
  a : Nat
  b : Nat
  c : Nat
  d : Nat
  e : Nat
  f : Nat
  g : Nat
  h : Nat

/-- One round of the compression function. -/
def round (r : Regs) (kw : Nat × Nat) : Regs :=
  let s1 := (rotr 6 r.e) ^^^ (rotr 11 r.e) ^^^ (rotr 25 r.e)
  let ch := (r.e &&& r.f) ^^^ ((r.e ^^^ 4294967295) &&& r.g)
  let t1 := w32 (r.h + s1 + ch + kw.1 + kw.2)
  let s0 := (rotr 2 r.a) ^^^ (rotr 13 r.a) ^^^ (rotr 22 r.a)
  let maj := (r.a &&& r.b) ^^^ (r.a &&& r.c) ^^^ (r.b &&& r.c)
  let t2 := w32 (s0 + maj)
  ⟨w32 (t1 + t2), r.a, r.b, r.c, w32 (r.d + t1), r.e, r.f, r.g⟩

/-- Compress one 64-byte block into the running hash state. -/
def compressBlock (hs : List Nat) (block : List Nat) : List Nat :=
  let ws := schedule (toWords block)
  let ini : Regs := ⟨hs.getD 0 0, hs.getD 1 0, hs.getD 2 0, hs.getD 3 0,
                     hs.getD 4 0, hs.getD 5 0, hs.getD 6 0, hs.getD 7 0⟩
  let fin := (K.zip ws).foldl round ini
  [w32 (hs.getD 0 0 + fin.a), w32 (hs.getD 1 0 + fin.b), w32 (hs.getD 2 0 + fin.c),
   w32 (hs.getD 3 0 + fin.d), w32 (hs.getD 4 0 + fin.e), w32 (hs.getD 5 0 + fin.f),
   w32 (hs.getD 6 0 + fin.g), w32 (hs.getD 7 0 + fin.h)]

/-- The eight big-endian bytes of the 64-bit message bit length. -/
def beBytes8 (n : Nat) : List Nat :=
  [(n >>> 56) % 256, (n >>> 48) % 256, (n >>> 40) % 256, (n >>> 32) % 256,
   (n >>> 24) % 256, (n >>> 16) % 256, (n >>> 8) % 256, n % 256]

/-- FIPS 180-4 padding: a 0x80 byte, zeros to 56 mod 64, then the bit length. -/
def pad (msg : List Nat) : List Nat :=
  msg ++ [128] ++ List.replicate ((119 - msg.length % 64) % 64) 0 ++ beBytes8 (8 * msg.length)

/-- Split into 64-byte blocks (fuel-based structural recursion). -/
def chunksAux : Nat → List Nat → List (List Nat)
  | 0, _ => []
  | _, [] => []
  | fuel + 1, l => l.take 64 :: chunksAux fuel (l.drop 64)

/-- SHA-256 of a byte list, as the list of 32 digest bytes. -/
def sha256 (msg : List Nat) : List Nat :=
  let hs := (chunksAux (msg.length + 1) (pad msg)).foldl compressBlock initH
  (hs.map (fun w => [(w >>> 24) % 256, (w >>> 16) % 256, (w >>> 8) % 256, w % 256])).flatten

end Sha256

/-! ## Byte/string codecs: Go `[]byte(s)` (UTF-8 encode) and `hex.EncodeToString` -/

/-- UTF-8 encoding of a single code point, as Go produces for `[]byte(string)`. -/
def utf8EncodeChar (c : Nat) : List Nat :=
  if c < 128 then [c]
  else if c < 2048 then [192 + (c >>> 6), 128 + c % 64]
  else if c < 65536 then [224 + (c >>> 12), 128 + (c >>> 6) % 64, 128 + c % 64]
  else [240 + (c >>> 18), 128 + (c >>> 12) % 64, 128 + (c >>> 6) % 64, 128 + c % 64]

/-- The UTF-8 bytes of a string, Go's `[]byte(s)`. -/
def strBytes (s : String) : List Nat :=
  (s.data.map (fun c => utf8EncodeChar c.toNat)).flatten

/-- Lowercase hex digit, as `encoding/hex` uses. -/
def hexDigit (n : Nat) : Char :=
  if n < 10 then Char.ofNat (48 + n) else Char.ofNat (87 + n)

/-- `hex.EncodeToString`: two lowercase hex characters per byte, high nibble first. -/
def hexEncode (bytes : List Nat) : List Char :=
  (bytes.map (fun b => [hexDigit ((b >>> 4) % 16), hexDigit (b % 16)])).flatten

/-! ## Proof-of-Work engine (internal/pow/sha256.go) -/

/-- The hex SHA-256 digest string computed by `ValidateChallenge`:
`hex.EncodeToString(sha256.Sum256([]byte(s)))`, as a character list. -/
def hashHex (s : String) : List Char :=
  hexEncode (Sha256.sha256 (strBytes s))

/-- Go `strings.HasPrefix s pre` on character lists: `hasLeading pre s`. -/
def hasLeading : List Char → List Char → Bool
  | [], _ => true
  | _ :: _, [] => false
  | a :: as, b :: bs => a == b && hasLeading as bs

/-- `ValidateChallenge` of internal/pow/sha256.go: the hex digest of
`challenge + solution` must start with `difficulty` repetitions of '0'
(`strings.Repeat("0", difficulty)`). -/
def ValidateChallenge (difficulty : Nat) (challenge solution : String) : Bool :=
  hasLeading (List.replicate difficulty '0') (hashHex (challenge ++ solution))

/-- Spec-side reading of the difficulty test: the number of leading '0'
characters of the digest. -/
def leadingZeros (l : List Char) : Nat :=
  (l.takeWhile (fun c => c == '0')).length

theorem hasLeading_replicate_iff (n : Nat) (l : List Char) :
    hasLeading (List.replicate n '0') l = true ↔ n ≤ leadingZeros l := by
  induction n generalizing l with
  | zero => simp [hasLeading]
  | succ n ih =>
    cases l with
    | nil => simp [hasLeading, leadingZeros]
    | cons c t =>
      by_cases hc : c = '0'
      · subst hc
        simp [hasLeading, leadingZeros, List.takeWhile, ih t, leadingZeros, Nat.succ_le_succ_iff]
      · have h2 : (c == '0') = false := by simp [hc]
        simp [hasLeading, leadingZeros, List.takeWhile, h2, hc, Ne.symm hc]

theorem empty_string_append (s : String) : "" ++ s = s := by
  cases s
  rfl

/-- C1: ValidateChallenge returns true if the hexadecimal SHA-256 digest of
challenge ++ solution (in that order, no separator) has at least `difficulty`
leading '0' characters, and false otherwise. -/
theorem ValidateChallenge_iff_leadingZeros (difficulty : Nat) (challenge solution : String) :
    ValidateChallenge difficulty challenge solution = true ↔
      difficulty ≤ leadingZeros (hashHex (challenge ++ solution)) :=
  hasLeading_replicate_iff difficulty _

/-- C10: with difficulty 0 every challenge/solution pair validates, including
the empty challenge and the empty solution (the required zero run is empty). -/
theorem ValidateChallenge_difficulty_zero (challenge solution : String) :
    ValidateChallenge 0 challenge solution = true := rfl

set_option maxRecDepth 100000 in
/-- C2 counterexample: at difficulty 1 the empty challenge with solution "x6"
validates successfully (sha256("x6") is 0520…), so validation with an empty
challenge does not return false for every difficulty and solution. -/
theorem ValidateChallenge_empty_challenge_true : ValidateChallenge 1 "" "x6" = true := by
  decide

/-- C2 (amended): an empty challenge is not special-cased: validation with an
empty challenge returns true iff the digest of the solution alone has at least
`difficulty` leading '0' characters (so, for instance, it always returns true
at difficulty 0). -/
theorem ValidateChallenge_empty_challenge (difficulty : Nat) (solution : String) :
    ValidateChallenge difficulty "" solution = true ↔
      difficulty ≤ leadingZeros (hashHex solution) := by
  rw [ValidateChallenge, empty_string_append]
  exact hasLeading_replicate_iff difficulty _

/-! ## Protocol handler (internal/app/handler.go)

The connection is modelled by the byte stream the client supplies (`input`),
the success/failure of each server write in order (`writeOk`), the challenge
the engine generated, the validation function, and the payload source's quote.
-/

/-- Is `b` a UTF-8 continuation byte. -/
def isCont (b : Nat) : Bool := 128 ≤ b && b < 192

/-- Go's `string([]byte)` conversion: UTF-8 decoding where every invalid byte
becomes U+FFFD and decoding advances one byte, as `utf8.DecodeRune` does.
Fuel-based recursion; the fuel bounds the number of decoded characters. -/
def utf8DecodeAux : Nat → List Nat → List Char
  | 0, _ => []
  | _, [] => []
  | fuel + 1, b :: rest =>
    if b < 128 then Char.ofNat b :: utf8DecodeAux fuel rest
    else if b < 194 then Char.ofNat 65533 :: utf8DecodeAux fuel rest
    else if b < 224 then
      match rest with
      | b2 :: rest2 =>
        if isCont b2 then Char.ofNat ((b - 192) * 64 + (b2 - 128)) :: utf8DecodeAux fuel rest2
        else Char.ofNat 65533 :: utf8DecodeAux fuel rest
      | [] => [Char.ofNat 65533]
    else if b < 240 then
      match rest with
      | b2 :: b3 :: rest3 =>
        if (if b = 224 then 160 ≤ b2 && b2 < 192
            else if b = 237 then 128 ≤ b2 && b2 < 160
            else isCont b2) && isCont b3 then
          Char.ofNat ((b - 224) * 4096 + (b2 - 128) * 64 + (b3 - 128)) :: utf8DecodeAux fuel rest3
        else Char.ofNat 65533 :: utf8DecodeAux fuel rest
      | _ => Char.ofNat 65533 :: utf8DecodeAux fuel rest
    else if b < 245 then
      match rest with
      | b2 :: b3 :: b4 :: rest4 =>
        if (if b = 240 then 144 ≤ b2 && b2 < 192
            else if b = 244 then 128 ≤ b2 && b2 < 144
            else isCont b2) && isCont b3 && isCont b4 then
          Char.ofNat ((b - 240) * 262144 + (b2 - 128) * 4096 + (b3 - 128) * 64 + (b4 - 128))
            :: utf8DecodeAux fuel rest4
        else Char.ofNat 65533 :: utf8DecodeAux fuel rest
      | _ => Char.ofNat 65533 :: utf8DecodeAux fuel rest
    else Char.ofNat 65533 :: utf8DecodeAux fuel rest

/-- Decode a full byte list. -/
def utf8Decode (l : List Nat) : List Char := utf8DecodeAux l.length l

/-- Go's `unicode.IsSpace`: the White_Space code points. -/
def isGoSpace (c : Char) : Bool :=
  c.toNat = 9 || c.toNat = 10 || c.toNat = 11 || c.toNat = 12 || c.toNat = 13 ||
  c.toNat = 32 || c.toNat = 133 || c.toNat = 160 || c.toNat = 5760 ||
  (8192 ≤ c.toNat && c.toNat ≤ 8202) || c.toNat = 8232 || c.toNat = 8233 ||
  c.toNat = 8239 || c.toNat = 8287 || c.toNat = 12288

/-- Go's `strings.TrimSpace`: drop leading and trailing white space. -/
def trimSpace (l : List Char) : List Char :=
  ((l.dropWhile isGoSpace).reverse.dropWhile isGoSpace).reverse

/-- `bufio.Reader.ReadString('\n')` on a byte stream: the bytes up to and
including the first newline, or none when the stream ends without one. -/
def readLine : List Nat → Option (List Nat)
  | [] => none
  | b :: rest => if b = 10 then some [b] else (readLine rest).map (fun l => b :: l)

/-- The `maxReadSize` constant of `readClientResponse`. -/
def maxReadSize : Nat := 1024

/-- `readClientResponse` of handler.go: an `io.LimitedReader` caps the stream
at `maxReadSize` bytes before line-buffering; a missing newline within that
budget is a read error (`none`); on success the line is `strings.TrimSpace`d. -/
def readClientResponse (input : List Nat) : Option String :=
  match readLine (input.take maxReadSize) with
  | none => none
  | some line => some (String.mk (trimSpace (utf8Decode line)))

/-- Modelled from the spec: the challenge line marker `protocol.PrefixChallenge`
(package pkg/protocol is absent from the repository snapshot; the spec's
wire-protocol table fixes the marker `CHALLENGE:`). -/
def PrefixChallenge : String := "CHALLENGE:"

/-- Modelled from the spec: the error line marker `protocol.PrefixError`
(`ERROR:` in the spec's wire-protocol table). -/
def PrefixError : String := "ERROR:"

/-- Modelled from the spec: the quote line marker `protocol.PrefixQuote`
(`QUOTE:` in the spec's wire-protocol table). -/
def PrefixQuote : String := "QUOTE:"

/-- The `InvalidMsg` constant of handler.go. -/
def InvalidMsg : String := "Invalid PoW solution"

/-- The error value `HandleConnection` wraps and returns on each failing path. -/
inductive HandleError where
  | sendChallenge
  | readResponse
  | sendValidate
  | sendQuote
deriving DecidableEq

/-- Observable outcome of one `HandleConnection` run: the returned error (if
any), the lines successfully written to the client in order (without the
trailing newline `fmt.Fprintln` appends), and whether `GetQuote` was called. -/
structure HandleResult where
  result : Option HandleError
  written : List String
  quoteCalled : Bool
deriving DecidableEq

/-- `HandleConnection` of handler.go: send the challenge line, read the
solution, validate it, then send either the rejection line or the quote line.
`writeOk i` tells whether the i-th `sendMessage` write succeeds. -/
def HandleConnection (validate : String → String → Bool) (quote : String)
    (challenge : String) (writeOk : Nat → Bool) (input : List Nat) : HandleResult :=
  if writeOk 0 = false then ⟨some .sendChallenge, [], false⟩
  else
    match readClientResponse input with
    | none => ⟨some .readResponse, [PrefixChallenge ++ challenge], false⟩
    | some solution =>
      if validate challenge solution = false then
        if writeOk 1 = false then ⟨some .sendValidate, [PrefixChallenge ++ challenge], false⟩
        else ⟨none, [PrefixChallenge ++ challenge, PrefixError ++ InvalidMsg], false⟩
      else
        if writeOk 1 = false then ⟨some .sendQuote, [PrefixChallenge ++ challenge], true⟩
        else ⟨none, [PrefixChallenge ++ challenge, PrefixQuote ++ quote], true⟩

theorem readLine_eq_none_iff (l : List Nat) : readLine l = none ↔ (10 : Nat) ∉ l := by
  induction l with
  | nil => simp [readLine]
  | cons b rest ih =>
    by_cases hb : b = 10
    · subst hb
      simp [readLine]
    · simp [readLine, hb, ih, Ne.symm hb]

/-- C3: when the challenge write and the solution read succeed but validation
rejects the trimmed solution, HandleConnection writes exactly one further line,
the error marker followed by InvalidMsg, never calls GetQuote, and returns no
error provided that error-line write succeeds. -/
theorem HandleConnection_invalid (validate : String → String → Bool)
    (quote challenge : String) (writeOk : Nat → Bool) (input : List Nat) (solution : String)
    (hw0 : writeOk 0 = true) (hr : readClientResponse input = some solution)
    (hv : validate challenge solution = false) (hw1 : writeOk 1 = true) :
    HandleConnection validate quote challenge writeOk input =
      ⟨none, [PrefixChallenge ++ challenge, PrefixError ++ InvalidMsg], false⟩ := by
  simp [HandleConnection, hw0, hr, hv, hw1]

set_option maxRecDepth 100000 in
/-- C3 witness: a concrete rejected exchange (client sends "bad", validation
rejects everything, both writes succeed). -/
theorem HandleConnection_invalid_witness :
    HandleConnection (fun _ _ => false) "q" "challenge-1234" (fun _ => true) [98, 97, 100, 10] =
      ⟨none, [PrefixChallenge ++ "challenge-1234", PrefixError ++ InvalidMsg], false⟩ :=
  HandleConnection_invalid (fun _ _ => false) "q" "challenge-1234" (fun _ => true)
    [98, 97, 100, 10] "bad" rfl (by decide) rfl rfl

/-- C7: the solution read depends only on the first maxReadSize (1024) bytes of
the client stream; when no newline occurs within that budget the read fails; on
success the solution is the whitespace-trimmed first line; and on a read error
HandleConnection returns a read failure without writing anything after the
challenge line. -/
theorem readClientResponse_bounded (input : List Nat) :
    readClientResponse input = readClientResponse (input.take maxReadSize)
    ∧ ((10 : Nat) ∉ input.take maxReadSize → readClientResponse input = none)
    ∧ (∀ line, readLine (input.take maxReadSize) = some line →
        readClientResponse input = some (String.mk (trimSpace (utf8Decode line))))
    ∧ (∀ validate quote challenge writeOk, writeOk 0 = true →
        readClientResponse input = none →
        HandleConnection validate quote challenge writeOk input =
          ⟨some HandleError.readResponse, [PrefixChallenge ++ challenge], false⟩) := by
  refine ⟨?_, ?_, ?_, ?_⟩
  · simp [readClientResponse, List.take_take]
  · intro h
    simp [readClientResponse, (readLine_eq_none_iff _).mpr h]
  · intro line h
    simp [readClientResponse, h]
  · intro validate quote challenge writeOk hw hr
    simp [HandleConnection, hw, hr]

set_option maxRecDepth 100000 in
/-- C7 witness: a 2000-byte stream with no newline yields a read failure and no
message after the challenge line. -/
theorem readClientResponse_bounded_witness :
    HandleConnection (fun _ _ => true) "q" "c" (fun _ => true) (List.replicate 2000 120) =
      ⟨some HandleError.readResponse, [PrefixChallenge ++ "c"], false⟩ := by
  have h := readClientResponse_bounded (List.replicate 2000 120)
  exact h.2.2.2 _ _ _ _ rfl (h.2.1 (by decide))

/-! ## Connection admission and lifecycle manager (internal/app, Server)

The shared mutable pieces — the buffered-channel semaphore, the sync.Map
limiter registry and the sync.Once shutdown flag — are linearizable, so any
concurrent execution is equivalent to some serialization of their atomic
operations; the models below quantify over all such serializations.
-/

/-- The fixed rate-limit rejection line of the Server. -/
def MsgOnManyReq : String := "Too many requests. Please try again later.\n"

/-- The fixed internal-error line written by recoverPanic. -/
def MsgOnErrInternal : String := "Internal server error. Please try again later.\n"

/-- Atomic operations on the admission semaphore (`make(chan struct{}, max)`):
the accept loop's non-blocking send and a unit's deferred receive. -/
inductive SemOp where
  | tryAcquire
  | release
deriving DecidableEq

/-- One semaphore transition: the `select`/`default` send succeeds only while
fewer than `maxConn` tokens are outstanding; a release returns one token. -/
def semStep (maxConn : Nat) (n : Nat) : SemOp → Nat
  | .tryAcquire => if n < maxConn then n + 1 else n
  | .release => n - 1

theorem semStep_le (maxConn n : Nat) (op : SemOp) (h : n ≤ maxConn) :
    semStep maxConn n op ≤ maxConn := by
  cases op with
  | tryAcquire =>
    by_cases hn : n < maxConn <;> simp [semStep, hn] <;> omega
  | release =>
    simp only [semStep]
    omega

theorem semCount_le (maxConn : Nat) (ops : List SemOp) (n : Nat) (h : n ≤ maxConn) :
    List.foldl (semStep maxConn) n ops ≤ maxConn := by
  induction ops generalizing n with
  | nil => simpa
  | cons op rest ih => exact ih _ (semStep_le _ _ _ h)

/-- How the body of handleClient finishes. -/
inductive UnitOutcome where
  | rateLimited
  | handlerOk
  | handlerError
  | handlerPanic
deriving DecidableEq

/-- Whether the body leaves a panic propagating into the deferred calls. -/
def outcomePanics : UnitOutcome → Bool
  | .handlerPanic => true
  | _ => false

/-- The deferred calls handleClient registers, in registration order:
`wg.Done`, `conn.Close`, the semaphore release, and `recoverPanic`. -/
inductive DeferAction where
  | wgDone
  | closeConn
  | releaseSlot
  | recoverPanic
deriving DecidableEq

/-- Observable result of one connection unit: how often each resource was
released, whether the best-effort internal-error line was written, and whether
a panic escaped the unit (which would kill the process). -/
structure UnitResult where
  released : Nat
  closedConn : Nat
  wgDone : Nat
  wroteInternalErr : Bool
  crashed : Bool
deriving DecidableEq

/-- Run one deferred call under Go semantics: deferred calls run even while a
panic is propagating, and a `recover()` inside one (here recoverPanic, which
then writes the internal-error line) stops the propagation. -/
def execDefer : Bool × UnitResult → DeferAction → Bool × UnitResult
  | (p, r), .wgDone => (p, { r with wgDone := r.wgDone + 1 })
  | (p, r), .closeConn => (p, { r with closedConn := r.closedConn + 1 })
  | (p, r), .releaseSlot => (p, { r with released := r.released + 1 })
  | (p, r), .recoverPanic =>
    if p then (false, { r with wroteInternalErr := true }) else (p, r)

/-- handleClient's defer stack in registration order. -/
def deferStack : List DeferAction :=
  [.wgDone, .closeConn, .releaseSlot, .recoverPanic]

/-- The exit protocol of `handleClient`: the deferred calls run in reverse
registration order whatever the body's outcome; a panic still propagating
after all of them would crash the process. -/
def handleClient (o : UnitOutcome) : UnitResult :=
  let pr := deferStack.reverse.foldl execDefer (outcomePanics o, ⟨0, 0, 0, false, false⟩)
  { pr.2 with crashed := pr.1 }

/-- C4: under every interleaving of admissions and releases the semaphore's
outstanding-token count never exceeds maxConn, and every exit path of
handleClient — rate-limit return, normal return, handler error, or panic —
releases the admission token exactly once, closes the socket exactly once, and
contains any panic (the process does not crash, so the manager keeps
accepting). -/
theorem semaphore_invariant_release_once (maxConn : Nat) (ops : List SemOp) (o : UnitOutcome) :
    List.foldl (semStep maxConn) 0 ops ≤ maxConn
    ∧ (handleClient o).released = 1
    ∧ (handleClient o).closedConn = 1
    ∧ (handleClient o).crashed = false := by
  refine ⟨semCount_le maxConn ops 0 (Nat.zero_le _), ?_, ?_, ?_⟩ <;> cases o <;> rfl

/-- Per-connection effects of one accept-loop iteration. -/
structure AcceptOutcome where
  admitted : Bool
  closedImmediately : Bool
  limiterConsulted : Bool
  bytesWritten : List String
deriving DecidableEq

/-- One iteration of acceptConnections after a successful `Accept`: a
non-blocking semaphore send either admits the socket (spawning handleClient,
which is what later consults the limiter) or, with the buffer full, hits the
`default` branch which only logs and closes the socket. -/
def acceptStep (maxConn n : Nat) : AcceptOutcome × Nat :=
  if n < maxConn then (⟨true, false, true, []⟩, n + 1)
  else (⟨false, true, false, []⟩, n)

/-- C5: when no admission permit is free at accept time the socket is closed
immediately: it is not handed to the Protocol Handler, no rate-limiter token is
consumed, no bytes are written to the client, and the token count is
unchanged. -/
theorem acceptStep_full (maxConn n : Nat) (h : ¬ n < maxConn) :
    acceptStep maxConn n = (⟨false, true, false, []⟩, n) := by
  simp [acceptStep, h]

/-- C5 witness: with the two permits of a size-2 pool outstanding, the next
accept sheds the connection. -/
theorem acceptStep_full_witness : acceptStep 2 2 = (⟨false, true, false, []⟩, 2) :=
  acceptStep_full 2 2 (by decide)

/-! ## Rate-limiter registry (Server.getLimiterForIP) -/

/-- A token-bucket limiter as `rate.NewLimiter` records it: refill interval in
nanoseconds and burst size. -/
structure Limiter where
  refillIntervalNs : Nat
  burst : Nat
deriving DecidableEq

/-- The configuration record of internal/config (durations in nanoseconds). -/
structure Config where
  port : String
  maxConnections : Nat
  connectionTimeoutNs : Nat
  shutdownTimeoutNs : Nat
  rateLimitEvery100MS : Nat
deriving DecidableEq

/-- The limiter getLimiterForIP constructs:
`rate.NewLimiter(rate.Every(100*time.Millisecond), s.config.RateLimitEvery100MS)`.
The refill interval is the hardcoded 100 ms; the burst comes from
configuration. -/
def newLimiter (cfg : Config) : Limiter := ⟨100000000, cfg.rateLimitEvery100MS⟩

/-- `sync.Map.LoadOrStore` on the registry: return the existing value when the
key is present, otherwise store and return the given one — one atomic step. -/
def loadOrStore (m : List (String × Limiter)) (ip : String) (v : Limiter) :
    Limiter × List (String × Limiter) :=
  match m.find? (fun p => p.1 == ip) with
  | some p => (p.2, m)
  | none => (v, m ++ [(ip, v)])

/-- `getLimiterForIP` of the Server. -/
def getLimiterForIP (cfg : Config) (m : List (String × Limiter)) (ip : String) :
    Limiter × List (String × Limiter) :=
  loadOrStore m ip (newLimiter cfg)

/-- Registry contents after any serialization of concurrent first and later
accesses (sync.Map linearizes the individual LoadOrStore calls). -/
def runAccesses (cfg : Config) (m : List (String × Limiter)) (ips : List String) :
    List (String × Limiter) :=
  ips.foldl (fun m ip => (getLimiterForIP cfg m ip).2) m

/-- Number of registry entries stored for one IP. -/
def countKey (m : List (String × Limiter)) (ip : String) : Nat :=
  (m.filter (fun p => p.1 == ip)).length

theorem countKey_append (m m' : List (String × Limiter)) (ip : String) :
    countKey (m ++ m') ip = countKey m ip + countKey m' ip := by
  simp [countKey, List.filter_append]

theorem countKey_eq_zero_of_not_found (m : List (String × Limiter)) (ip : String)
    (h : m.find? (fun p => p.1 == ip) = none) : countKey m ip = 0 := by
  simp only [countKey, List.length_eq_zero, List.filter_eq_nil_iff]
  intro p hp
  exact (List.find?_eq_none.mp h) p hp

theorem countKey_pos_of_found (m : List (String × Limiter)) (ip : String) (p : String × Limiter)
    (h : m.find? (fun q => q.1 == ip) = some p) : 1 ≤ countKey m ip := by
  induction m with
  | nil => simp [List.find?] at h
  | cons a rest ih =>
    by_cases ha : (a.1 == ip) = true
    · simp [countKey, List.filter_cons, ha]
    · have ha2 : (a.1 == ip) = false := by simpa using ha
      simp only [List.find?, ha2] at h
      have h2 := ih h
      have h3 : countKey (a :: rest) ip = countKey rest ip := by
        simp [countKey, List.filter_cons, ha2]
      omega

theorem countKey_getLimiterForIP_le (cfg : Config) (m : List (String × Limiter)) (ip q : String)
    (h : countKey m q ≤ 1) : countKey (getLimiterForIP cfg m ip).2 q ≤ 1 := by
  unfold getLimiterForIP loadOrStore
  cases hf : m.find? (fun p => p.1 == ip) with
  | some p => simpa using h
  | none =>
    simp only [countKey_append]
    by_cases hq : ip = q
    · subst hq
      have h0 := countKey_eq_zero_of_not_found m ip hf
      have h1 : countKey [(ip, newLimiter cfg)] ip = 1 := by
        simp [countKey, List.filter_cons]
      omega
    · have h1 : countKey [(ip, newLimiter cfg)] q = 0 := by
        simp [countKey, List.filter_cons, hq]
      omega

theorem countKey_getLimiterForIP_mono (cfg : Config) (m : List (String × Limiter)) (ip q : String) :
    countKey m q ≤ countKey (getLimiterForIP cfg m ip).2 q := by
  unfold getLimiterForIP loadOrStore
  cases hf : m.find? (fun p => p.1 == ip) with
  | some p => simp
  | none => simp [countKey_append]

theorem countKey_getLimiterForIP_self (cfg : Config) (m : List (String × Limiter)) (ip : String) :
    1 ≤ countKey (getLimiterForIP cfg m ip).2 ip := by
  unfold getLimiterForIP loadOrStore
  cases hf : m.find? (fun p => p.1 == ip) with
  | some p => simpa using countKey_pos_of_found m ip p hf
  | none =>
    simp only [countKey_append]
    have h1 : countKey [(ip, newLimiter cfg)] ip = 1 := by
      simp [countKey, List.filter_cons]
    omega

theorem mem_getLimiterForIP (cfg : Config) (m : List (String × Limiter)) (ip : String)
    (p : String × Limiter) (hp : p ∈ (getLimiterForIP cfg m ip).2) :
    p ∈ m ∨ p.2 = newLimiter cfg := by
  unfold getLimiterForIP loadOrStore at hp
  cases hf : m.find? (fun q => q.1 == ip) with
  | some q =>
    rw [hf] at hp
    exact Or.inl hp
  | none =>
    rw [hf] at hp
    rcases List.mem_append.mp hp with h | h
    · exact Or.inl h
    · right
      have : p = (ip, newLimiter cfg) := by simpa using h
      rw [this]

theorem runAccesses_le (cfg : Config) (ips : List String) (m : List (String × Limiter))
    (q : String) (h : countKey m q ≤ 1) : countKey (runAccesses cfg m ips) q ≤ 1 := by
  induction ips generalizing m with
  | nil => simpa [runAccesses]
  | cons ip rest ih => exact ih _ (countKey_getLimiterForIP_le cfg m ip q h)

theorem runAccesses_mono (cfg : Config) (ips : List String) (m : List (String × Limiter))
    (q : String) : countKey m q ≤ countKey (runAccesses cfg m ips) q := by
  induction ips generalizing m with
  | nil => simp [runAccesses]
  | cons ip rest ih =>
    exact Nat.le_trans (countKey_getLimiterForIP_mono cfg m ip q) (ih _)

theorem runAccesses_mem_pos (cfg : Config) (ips : List String) (m : List (String × Limiter))
    (q : String) (h : q ∈ ips) : 1 ≤ countKey (runAccesses cfg m ips) q := by
  induction ips generalizing m with
  | nil => cases h
  | cons ip rest ih =>
    rcases List.mem_cons.mp h with rfl | hrest
    · exact Nat.le_trans (countKey_getLimiterForIP_self cfg m q)
        (runAccesses_mono cfg rest _ q)
    · exact ih _ hrest

theorem runAccesses_values (cfg : Config) (ips : List String) (m : List (String × Limiter))
    (p : String × Limiter) (hp : p ∈ runAccesses cfg m ips) :
    p ∈ m ∨ p.2 = newLimiter cfg := by
  induction ips generalizing m with
  | nil => exact Or.inl hp
  | cons ip rest ih =>
    rcases ih _ hp with h | h
    · exact mem_getLimiterForIP cfg m ip p h
    · exact Or.inr h

/-- C6 counterexample: a freshly created limiter's refill interval is the
hardcoded 100 ms whatever the configuration says: two configurations differing
in the only rate-limit field yield limiters with different bursts but the same
fixed refill interval, so the refill rate is not taken from configuration. -/
theorem getLimiterForIP_refill_hardcoded :
    (getLimiterForIP ⟨"", 1, 0, 0, 1⟩ [] "a").1.refillIntervalNs = 100000000
    ∧ (getLimiterForIP ⟨"", 1, 0, 0, 7⟩ [] "a").1.refillIntervalNs = 100000000
    ∧ (getLimiterForIP ⟨"", 1, 0, 0, 1⟩ [] "a").1.burst ≠
        (getLimiterForIP ⟨"", 1, 0, 0, 7⟩ [] "a").1.burst :=
  ⟨rfl, rfl, by decide⟩

/-- C6 (amended): under every serialization of concurrent accesses, the
registry holds at most one limiter per IP, exactly one for each accessed IP,
and every stored limiter is built with the fixed 100 ms refill interval and
the burst taken from the configuration's RateLimitEvery100MS field. -/
theorem limiter_registry_one_per_ip (cfg : Config) (ips : List String) (ip : String) :
    countKey (runAccesses cfg [] ips) ip ≤ 1
    ∧ (ip ∈ ips → countKey (runAccesses cfg [] ips) ip = 1)
    ∧ (∀ p ∈ runAccesses cfg [] ips, p.2 = ⟨100000000, cfg.rateLimitEvery100MS⟩) := by
  refine ⟨runAccesses_le cfg ips [] ip (by simp [countKey]), ?_, ?_⟩
  · intro h
    have h1 := runAccesses_mem_pos cfg ips [] ip h
    have h2 := runAccesses_le cfg ips [] ip (by simp [countKey])
    omega
  · intro p hp
    rcases runAccesses_values cfg ips [] p hp with h | h
    · cases h
    · exact h

/-- C6 witness: three accesses from two IPs leave one limiter per IP. -/
theorem limiter_registry_one_per_ip_witness :
    countKey (runAccesses ⟨"", 1, 0, 0, 5⟩ [] ["a", "b", "a"]) "a" = 1
    ∧ ∀ p ∈ runAccesses ⟨"", 1, 0, 0, 5⟩ [] ["a", "b", "a"], p.2 = ⟨100000000, 5⟩ :=
  ⟨(limiter_registry_one_per_ip ⟨"", 1, 0, 0, 5⟩ ["a", "b", "a"] "a").2.1 (by decide),
   (limiter_registry_one_per_ip ⟨"", 1, 0, 0, 5⟩ ["a", "b", "a"] "a").2.2⟩

/-! ## Graceful shutdown (Server.Shutdown) -/

/-- The steps of the shutdown body, in order. -/
inductive ShutdownEvent where
  | closeListener
  | drainWait
  | cancelCtx
deriving DecidableEq

/-- The server state Shutdown touches: the sync.Once flag and the shutdown
events executed so far. -/
structure ShutdownState where
  onceDone : Bool
  events : List ShutdownEvent
deriving DecidableEq

/-- The body of Shutdown, in order: close the listener, wait for in-flight
units racing the drain timeout, cancel the lifecycle context. -/
def shutdownBody : List ShutdownEvent := [.closeListener, .drainWait, .cancelCtx]

/-- `Shutdown` of the Server: `shutdownOnce.Do` runs the body only when the
flag is still unset (sync.Once serializes concurrent callers; the
termination-signal path in Start and explicit calls reach this same
function). -/
def Shutdown (s : ShutdownState) : ShutdownState :=
  if s.onceDone then s else ⟨true, s.events ++ shutdownBody⟩

/-- C8: from a fresh server any positive number of Shutdown invocations —
signal-triggered or explicit, in any serialization — executes the body
(close listener, drain wait, context cancel, in that order) exactly once, and
a further invocation on a shut-down server changes nothing. -/
theorem Shutdown_idempotent (n : Nat) (s : ShutdownState) (hn : 1 ≤ n)
    (hs : s.onceDone = true) :
    Nat.iterate Shutdown n ⟨false, []⟩ = ⟨true, shutdownBody⟩ ∧ Shutdown s = s := by
  constructor
  · obtain ⟨m, rfl⟩ : ∃ m, n = m + 1 := ⟨n - 1, by omega⟩
    rw [Function.iterate_succ_apply]
    have h1 : Shutdown ⟨false, []⟩ = ⟨true, shutdownBody⟩ := by simp [Shutdown]
    rw [h1]
    exact Function.iterate_fixed (by simp [Shutdown]) m
  · simp [Shutdown, hs]

/-- C8 witness: three invocations behave as one; a fourth is a no-op. -/
theorem Shutdown_idempotent_witness :
    Nat.iterate Shutdown 3 ⟨false, []⟩ = ⟨true, shutdownBody⟩
    ∧ Shutdown ⟨true, shutdownBody⟩ = ⟨true, shutdownBody⟩ :=
  Shutdown_idempotent 3 ⟨true, shutdownBody⟩ (by decide) rfl

/-! ## Payload source (internal/quotes) -/

/-- The `Stub` fallback constant of internal/quotes. -/
def Stub : String := "Angry people are not always wise."

/-- `GetQuote` of internal/quotes: the Stub when the backing list is empty,
otherwise the entry at `rng.Intn(len(quotes))`; the arbitrary rng draw `r`
reaches exactly the indices below the length as `r % length`. -/
def GetQuote (quotes : List String) (r : Nat) : String :=
  if h : quotes.length = 0 then Stub
  else quotes.get ⟨r % quotes.length, Nat.mod_lt r (Nat.pos_of_ne_zero h)⟩

/-- C9 counterexample: a backing list whose only element is the empty string
makes GetQuote return the empty string, so GetQuote does not return a
non-empty string for every backing list. -/
theorem GetQuote_can_return_empty : GetQuote [""] 0 = "" := rfl

/-- C9 (amended): GetQuote returns the fixed non-empty Stub when the backing
list is empty and one of the list's elements otherwise — hence a non-empty
string whenever every backing quote is non-empty. -/
theorem GetQuote_spec (quotes : List String) (r : Nat) :
    (quotes = [] → GetQuote quotes r = Stub)
    ∧ Stub ≠ ""
    ∧ (quotes ≠ [] → GetQuote quotes r ∈ quotes)
    ∧ ((∀ q ∈ quotes, q ≠ "") → quotes ≠ [] → GetQuote quotes r ≠ "") := by
  have hmem : quotes ≠ [] → GetQuote quotes r ∈ quotes := by
    intro h
    have hl : ¬ quotes.length = 0 := by simpa [List.length_eq_zero] using h
    simp only [GetQuote, hl, dite_false]
    exact List.get_mem _ _ _
  refine ⟨?_, by decide, hmem, fun hall h => hall _ (hmem h)⟩
  rintro rfl
  rfl

/-- C9 witness: the empty list yields the Stub; a concrete list yields one of
its elements. -/
theorem GetQuote_spec_witness :
    GetQuote [] 5 = Stub ∧ GetQuote ["a", "b"] 3 ∈ ["a", "b"] :=
  ⟨(GetQuote_spec [] 5).1 rfl, (GetQuote_spec ["a", "b"] 3).2.2.1 (by decide)⟩

end WordOfWisdom
